import Mathlib

/-!
Verification development for the URL risk-assessment pipeline of the
phishing-defense repository.

The Python sources are shallowly embedded:
  * `src/core/api_client.py` — `_normalize_url`, `_rate_limit_wait`,
    `scan_url`, `_build_result`;
  * `src/core/heuristic_engine.py` — `analyze_url` and its helpers;
  * `src/ui/scanner_tab.py` — `_run_scan` (engine orchestration).

Strings are modelled as `List Char` internally (with `String` wrappers at
the interface).  Python's stdlib primitives used by the code (`str.strip`,
`str.lower`, `urllib.parse.urlsplit`'s netloc/hostname/port extraction,
`urllib.parse.unquote`, `int(_, 10)`) are modelled faithfully on the
fragments the code exercises; deviations are noted at each definition.
Machine floats are modelled by exact rationals/reals; `math.log2` by
`Real.logb 2`.
-/

deriving instance DecidableEq for Except

namespace PhishDef

/-! ## Character and string primitives (models of Python `str` methods) -/

/-- Model of `str.lower` restricted to ASCII letters (the sources only
lowercase hostnames/schemes; non-ASCII case folding is not exercised by any
claim).  The range test is `'A' ≤ c ∧ c ≤ 'Z'`, written on code points. -/
def lowerChar (c : Char) : Char :=
  if 65 ≤ c.toNat ∧ c.toNat ≤ 90 then Char.ofNat (c.toNat + 32) else c

def pyLower (l : List Char) : List Char := l.map lowerChar

/-- Model of the whitespace class stripped by `str.strip()` (ASCII subset). -/
def isSpaceChar (c : Char) : Bool := c.isWhitespace

/-- Model of `str.strip()`. -/
def pyStrip (l : List Char) : List Char :=
  ((l.dropWhile isSpaceChar).reverse.dropWhile isSpaceChar).reverse

def isHexDigitChar (c : Char) : Bool :=
  c.isDigit || ( 'a' ≤ c && c ≤ 'f') || ( 'A' ≤ c && c ≤ 'F')

def hexDigitVal (c : Char) : ℕ :=
  if c.isDigit then c.toNat - 48
  else if 'a' ≤ c ∧ c ≤ 'f' then c.toNat - 87
  else if 'A' ≤ c ∧ c ≤ 'F' then c.toNat - 55
  else 0

/-- Model of `urllib.parse.unquote` on ASCII percent-escapes: a valid
`%XX` escape with `XX < 0x80` is decoded, anything else is left verbatim.
(Multi-byte UTF-8 escape runs are left undecoded by the model; no claim
involves them.) -/
def pyUnquote : List Char → List Char
  | [] => []
  | '%' :: a :: b :: rest =>
      if isHexDigitChar a && isHexDigitChar b &&
          hexDigitVal a * 16 + hexDigitVal b < 128 then
        Char.ofNat (hexDigitVal a * 16 + hexDigitVal b) :: pyUnquote rest
      else
        '%' :: pyUnquote (a :: b :: rest)
  | c :: rest => c :: pyUnquote rest

/-- Model of `str.startswith`. -/
def pyStartsWith (pre l : List Char) : Bool := pre.isPrefixOf l

/-- Model of Python's substring test `needle in haystack`. -/
def containsSeg : List Char → List Char → Bool
  | needle, [] => needle.isEmpty
  | needle, c :: rest => needle.isPrefixOf (c :: rest) || containsSeg needle rest

/-! ## URL splitting (model of `urllib.parse.urlsplit` as used by the code)

Both `_normalize_url` and `analyze_url` only ever call `urlparse` on a
string that begins with `http://` or `https://` (they prepend `http://`
otherwise), so the scheme-splitting model only needs those two prefixes.
The fragment component is split off but never used by the sources, so it is
dropped.  `urlsplit` raises `ValueError("Invalid IPv6 URL")` when the
netloc contains exactly one of `[`, `]`; that is the only parse-time
failure the embedded pipeline can hit. -/

inductive ParseErr where
  | invalidIPv6
  | invalidNetloc
  | invalidPort
  | portOutOfRange
deriving Repr, DecidableEq

def httpPrefix : List Char := "http://".toList

def httpsPrefix : List Char := "https://".toList

/-- Prefix handling shared by `_normalize_url` and `analyze_url`:
`if not url.startswith(("http://", "https://")): url = "http://" + url`. -/
def ensureScheme (l : List Char) : List Char :=
  if pyStartsWith httpPrefix l || pyStartsWith httpsPrefix l then l
  else httpPrefix ++ l

def netlocDelim (c : Char) : Bool := c = '/' || c = '?' || c = '#'

structure UrlSplit where
  scheme : List Char
  netloc : List Char
  path : List Char
  query : List Char
deriving Repr, DecidableEq

/-- Scheme extraction for strings produced by `ensureScheme`. -/
def schemeSplit (l : List Char) : List Char × List Char :=
  if pyStartsWith httpsPrefix l then ( "https".toList, l.drop 8)
  else if pyStartsWith httpPrefix l then ( "http".toList, l.drop 7)
  else ([], l)

/-- The netloc: everything up to the first `/`, `?` or `#`. -/
def splitNetloc (l : List Char) : List Char :=
  l.takeWhile (fun c => !netlocDelim c)

def splitAfter (l : List Char) : List Char :=
  l.dropWhile (fun c => !netlocDelim c)

/-- The part before the fragment separator. -/
def splitPre (l : List Char) : List Char :=
  (splitAfter l).takeWhile (fun c => c ≠ '#')

def splitPath (l : List Char) : List Char :=
  (splitPre l).takeWhile (fun c => c ≠ '?')

def splitQuery (l : List Char) : List Char :=
  ((splitPre l).dropWhile (fun c => c ≠ '?')).drop 1

/-- `str.isascii()` on a character: code point below 128. -/
def isAsciiChar (c : Char) : Bool := decide (c.toNat < 128)

/-- The non-ASCII characters whose NFKC normalization contains one of the
delimiters `/?#@:` (U+2047–U+2049, U+2100, U+2101, U+2105, U+2106,
U+2A74, U+FE13, U+FE16, U+FE55, U+FE56, U+FE5F, U+FE6B, U+FF03, U+FF0F,
U+FF1A, U+FF1F, U+FF20).  Compatibility decompositions act per character
and canonical composition never produces ASCII, so the NFKC image of a
delimiter-free string contains a delimiter exactly when the string
contains one of these characters. -/
def nfkcDelimChars : List Char :=
  [Char.ofNat 0x2047, Char.ofNat 0x2048, Char.ofNat 0x2049, Char.ofNat 0x2100,
   Char.ofNat 0x2101, Char.ofNat 0x2105, Char.ofNat 0x2106, Char.ofNat 0x2A74,
   Char.ofNat 0xFE13, Char.ofNat 0xFE16, Char.ofNat 0xFE55, Char.ofNat 0xFE56,
   Char.ofNat 0xFE5F, Char.ofNat 0xFE6B, Char.ofNat 0xFF03, Char.ofNat 0xFF0F,
   Char.ofNat 0xFF1A, Char.ofNat 0xFF1F, Char.ofNat 0xFF20]

/-- Model of `urllib.parse._checknetloc`: a netloc passes when it is empty
or all-ASCII; otherwise the delimiters `@:#?` already accounted for are
discarded and the rest must NFKC-normalize to delimiter-free text, which
by the characterization above means containing none of
`nfkcDelimChars` (`_checknetloc` raises `ValueError` otherwise). -/
def checknetlocOk (netloc : List Char) : Bool :=
  netloc.isEmpty || netloc.all isAsciiChar ||
    (netloc.filter (fun c => !(c = '@' || c = ':' || c = '#' || c = '?'))).all
      (fun c => !(nfkcDelimChars.contains c))

/-- Model of `urlsplit` on the inputs at hand: the bracket sanity check on
the netloc (`Invalid IPv6 URL`), then `_checknetloc`, are the parse-time
failure modes; on success the URL splits into scheme, netloc, path and
query.  (Newer CPython versions additionally validate the contents of a
bracketed host; that check is not modelled and no claim's domain includes
bracketed hosts.) -/
def urlsplitE (l : List Char) : Except ParseErr UrlSplit :=
  if ( '[' ∈ splitNetloc (schemeSplit l).2 ∧ ']' ∉ splitNetloc (schemeSplit l).2) ∨
      ( ']' ∈ splitNetloc (schemeSplit l).2 ∧ '[' ∉ splitNetloc (schemeSplit l).2) then
    .error .invalidIPv6
  else if !checknetlocOk (splitNetloc (schemeSplit l).2) then
    .error .invalidNetloc
  else
    .ok ⟨(schemeSplit l).1, splitNetloc (schemeSplit l).2,
      splitPath (schemeSplit l).2, splitQuery (schemeSplit l).2⟩

/-- The last `/`-separated segment of a path: the region
`url.find(';', url.rfind('/'))` searches in `_splitparams`. -/
def lastSeg (url : List Char) : List Char :=
  (url.reverse.takeWhile (fun c => !(c = '/'))).reverse

/-- Everything up to and including the last `/` of a path. -/
def lastSegPre (url : List Char) : List Char :=
  (url.reverse.dropWhile (fun c => !(c = '/'))).reverse

/-- Model of `_splitparams` as invoked by `urlparse` (every scheme at hand
— `http`, `https` or empty — is in `uses_params`): when the path contains
`;`, the `;params` suffix of its last segment is split off and dropped. -/
def paramSplit (url : List Char) : List Char :=
  if ';' ∈ url then
    if '/' ∈ url then
      if ';' ∈ lastSeg url then
        lastSegPre url ++ (lastSeg url).takeWhile (fun c => !(c = ';'))
      else url
    else url.takeWhile (fun c => !(c = ';'))
  else url

/-- Model of `urlparse`: `urlsplit` followed by the parameter split on the
path (both `_normalize_url` and `analyze_url` call `urlparse`, whose
`.path` excludes the `;params` of the last segment). -/
def urlparseE (l : List Char) : Except ParseErr UrlSplit :=
  match urlsplitE l with
  | .ok s => .ok ⟨s.scheme, s.netloc, paramSplit s.path, s.query⟩
  | .error e => .error e

/-- Model of `SplitResult._hostinfo`: strip userinfo at the last `@`, then
extract `(hostname, port-string)`, handling a bracketed host. -/
def afterLastAt (l : List Char) : List Char :=
  (l.reverse.takeWhile (fun c => c ≠ '@')).reverse

def rawHostPort (netloc : List Char) : List Char × List Char :=
  let hostinfo := afterLastAt netloc
  if '[' ∈ hostinfo then
    let bracketed := (hostinfo.dropWhile (fun c => c ≠ '[')).drop 1
    let hostname := bracketed.takeWhile (fun c => c ≠ ']')
    let afterBr := (bracketed.dropWhile (fun c => c ≠ ']')).drop 1
    (hostname, (afterBr.dropWhile (fun c => c ≠ ':')).drop 1)
  else
    (hostinfo.takeWhile (fun c => c ≠ ':'),
      (hostinfo.dropWhile (fun c => c ≠ ':')).drop 1)

/-- Model of the `SplitResult.hostname` property (lowercased; `None`/empty
both collapse to `[]`, matching the sources' `parsed.hostname or ""`). -/
def hostnameOf (netloc : List Char) : List Char := pyLower (rawHostPort netloc).1

/-! ## Port parsing (model of `int(port, 10)` plus the range check in the
`SplitResult.port` property, which raises `ValueError` on a malformed or
out-of-range port) -/

def noDoubleUnderscore : List Char → Bool
  | [] => true
  | [_] => true
  | a :: b :: rest => !(a = '_' && b = '_') && noDoubleUnderscore (b :: rest)

def digitsVal (l : List Char) : ℕ :=
  l.foldl (fun acc c => if c.isDigit then acc * 10 + (c.toNat - 48) else acc) 0

def stripSign (t : List Char) : ℤ × List Char :=
  match t with
  | [] => (1, [])
  | c :: rest =>
      if c = '+' then (1, rest)
      else if c = '-' then (-1, rest)
      else (1, c :: rest)

/-- Model of `int(s, 10)`: optional surrounding whitespace, optional sign,
then a nonempty digit string with optional single underscores between
digits. -/
def pyIntParse (l : List Char) : Option ℤ :=
  let sd := stripSign (pyStrip l)
  let ds := sd.2
  if ds ≠ [] ∧ ds.all (fun c => c.isDigit || c = '_') ∧ ds.head? ≠ some '_' ∧
      ds.getLast? ≠ some '_' ∧ noDoubleUnderscore ds then
    some (sd.1 * (digitsVal (ds.filter (fun c => c.isDigit)) : ℤ))
  else none

/-- Model of accessing `parsed.port` (raises on malformed or out-of-range
ports; an empty port string yields `None`). -/
def portValE (l : List Char) : Except ParseErr (Option ℕ) :=
  if l = [] then .ok none
  else
    match pyIntParse l with
    | none => .error .invalidPort
    | some n => if 0 ≤ n ∧ n ≤ 65535 then .ok (some n.toNat)
                else .error .portOutOfRange

/-! ## `_normalize_url` (src/core/api_client.py, lines 54-67) -/

structure NormParts where
  scheme : List Char
  host : List Char
  port : Option ℕ
  path : List Char
  query : List Char
deriving Repr, DecidableEq

/-- The parsing phase of `_normalize_url`: strip, default the scheme,
`urlparse` the URL, extract hostname and port.  `urlparse` can raise on
mismatched brackets or an NFKC-unsafe netloc; accessing `parsed.port` is
the step that can raise on a malformed port. -/
def parseNormE (l : List Char) : Except ParseErr NormParts := do
  let s ← urlparseE (ensureScheme (pyStrip l))
  let port ← portValE (rawHostPort s.netloc).2
  .ok ⟨s.scheme, hostnameOf s.netloc, port, s.path, s.query⟩

/-- Decimal rendering of a natural number (model of `f"{port}"`). -/
def natDigitsAux : ℕ → ℕ → List Char
  | 0, _ => []
  | fuel + 1, n =>
      if n = 0 then [] else natDigitsAux fuel (n / 10) ++ [Char.ofNat (n % 10 + 48)]

def renderNum (n : ℕ) : List Char :=
  if n = 0 then [ '0'] else natDigitsAux n n

/-- `if parsed.port and parsed.port not in (80, 443)`: the port is kept in
the output only when present, nonzero (a zero port is falsy) and different
from both 80 and 443 — regardless of the scheme. -/
def portSegment (p : Option ℕ) : List Char :=
  match p with
  | none => []
  | some n => if n = 0 ∨ n = 80 ∨ n = 443 then [] else ':' :: renderNum n

/-- Model of `parsed.path.rstrip("/")`. -/
def pyRstripSlash (l : List Char) : List Char :=
  (l.reverse.dropWhile (fun c => c = '/')).reverse

/-- `parsed.path.rstrip("/") or "/"`. -/
def pathSegment (path : List Char) : List Char :=
  let p := pyRstripSlash path
  if p = [] then [ '/'] else p

/-- `if parsed.query: normalized += f"?{parsed.query}"`. -/
def querySegment (q : List Char) : List Char :=
  if q = [] then [] else '?' :: q

/-- The string-building phase of `_normalize_url`. -/
def buildNormalized (p : NormParts) : List Char :=
  pyLower p.scheme ++ ( "://".toList) ++ pyLower p.host ++ portSegment p.port ++
    pathSegment p.path ++ querySegment p.query

/-- `_normalize_url` itself.  A `.error` value models the `ValueError`
raised out of `urlparse` / `parsed.port` on malformed input. -/
def normalize_url (s : String) : Except ParseErr String :=
  (parseNormE s.toList).map (fun p => String.mk (buildNormalized p))

/-! ## Heuristic engine constants (src/core/heuristic_engine.py) -/

def SUSPICIOUS_KEYWORDS : List (List Char) :=
  ([ "login", "signin", "sign-in", "verify", "secure", "account",
     "update", "confirm", "bank", "paypal", "password", "credential",
     "suspend", "alert", "urgent", "click", "free", "winner", "prize",
     "bonus", "offer", "gift", "reward", "billing", "invoice",
     "authenticate", "wallet", "recover", "unlock", "validate",
     "webscr", "cmd", "token", "auth", "sso", "oauth"] : List String).map
    String.toList

def HIGH_RISK_TLDS : List (List Char × ℚ) :=
  ([ ( ".tk", 8), ( ".ml", 8), ( ".ga", 8), ( ".cf", 8), ( ".gq", 8),
     ( ".xyz", 6), ( ".top", 6), ( ".pw", 7), ( ".cc", 5), ( ".club", 5),
     ( ".work", 5), ( ".buzz", 6), ( ".icu", 6), ( ".cam", 5), ( ".surf", 5),
     ( ".link", 4), ( ".click", 5), ( ".info", 3), ( ".biz", 3),
     ( ".online", 4), ( ".site", 4), ( ".store", 3), ( ".fun", 4)] :
    List (String × ℚ)).map (fun p => (p.1.toList, p.2))

def TARGET_BRANDS : List (List Char × List (List Char)) :=
  ([ ( "facebook", [ "faceb00k", "facbook", "facebk", "fb-login", "faceb0ok"]),
     ( "google", [ "g00gle", "gogle", "googl", "go0gle", "goog1e"]),
     ( "paypal", [ "paypa1", "paypall", "pay-pal", "payp4l"]),
     ( "microsoft", [ "micros0ft", "microsft", "m1crosoft", "micr0soft"]),
     ( "apple", [ "app1e", "appie", "apple-id", "appl3"]),
     ( "amazon", [ "amaz0n", "amazn", "arnazon", "amzon"]),
     ( "netflix", [ "netf1ix", "netflex", "netfl1x"]),
     ( "instagram", [ "1nstagram", "instagran", "lnstagram"]),
     ( "twitter", [ "tw1tter", "tvvitter", "twiiter"]),
     ( "linkedin", [ "linkedln", "l1nkedin", "linkdin"])] :
    List (String × List String)).map
    (fun p => (p.1.toList, p.2.map String.toList))

/-- The homograph table.  The source dict literal lists `у` twice
(mapping to `y` and then `u`); as a Python dict the second entry wins,
and only key membership affects any score, so the pair list keeps both. -/
def HOMOGRAPH_MAP : List (Char × Char) :=
  [ ( 'а', 'a'), ( 'е', 'e'), ( 'о', 'o'), ( 'р', 'p'),
    ( 'с', 'c'), ( 'у', 'y'), ( 'х', 'x'), ( 'һ', 'h'),
    ( 'і', 'i'), ( 'ј', 'j'), ( 'ӏ', 'l'), ( 'н', 'n'),
    ( 'ѕ', 's'), ( 'т', 't'), ( 'ъ', 'b'), ( 'в', 'v'),
    ( 'ш', 'w'), ( 'у', 'u'), ( 'з', '3')]

/-! ## Heuristic engine helpers -/

/-- Model of `_shannon_entropy` (`math.log2` becomes `Real.logb 2`; the
`Counter` iterates over distinct characters). -/
noncomputable def shannon_entropy (l : List Char) : ℝ :=
  if l = [] then 0
  else
    -((l.dedup.map (fun c =>
        ((l.count c : ℝ) / (l.length : ℝ)) *
          Real.logb 2 ((l.count c : ℝ) / (l.length : ℝ)))).sum)

/-- The IPv4 alternative `^(\d{1,3}\.){3}\d{1,3}$`: exactly four
dot-separated groups of one to three decimal digits. -/
def ipv4Like (l : List Char) : Bool :=
  let groups := l.splitOn '.'
  groups.length = 4 &&
    groups.all (fun g => !g.isEmpty && g.length ≤ 3 && g.all Char.isDigit)

def hexColonChar (c : Char) : Bool := isHexDigitChar c || c = ':'

def stripBracketL (l : List Char) : List Char :=
  if l.head? = some '[' then l.drop 1 else l

def stripBracketR (l : List Char) : List Char :=
  if l.getLast? = some ']' then l.dropLast else l

/-- The IPv6 alternative `^\[?[0-9a-fA-F:]+\]?$`: an optional leading `[`,
then at least one character from `[0-9a-fA-F:]`, then an optional
trailing `]`. -/
def ipv6Like (l : List Char) : Bool :=
  !(stripBracketR (stripBracketL l)).isEmpty &&
    (stripBracketR (stripBracketL l)).all hexColonChar

/-- Model of `_is_ip_address`. -/
def is_ip_address (host : List Char) : Bool := ipv4Like host || ipv6Like host

/-- Inner loop of `_levenshtein`: one DP row step. -/
def levRowAux (c1 : Char) : List Char → List ℕ → ℕ → List ℕ
  | [], _, _ => []
  | c2 :: s2, prow, last =>
      match prow with
      | [] => []
      | pj :: rest =>
          let pj1 := rest.headD 0
          let v := min (min (pj1 + 1) (last + 1))
            (pj + (if c1 = c2 then 0 else 1))
          v :: levRowAux c1 s2 rest v

def levRows : List Char → List Char → List ℕ → ℕ → List ℕ
  | [], _, prow, _ => prow
  | c1 :: s1, s2, prow, i =>
      levRows s1 s2 ((i + 1) :: levRowAux c1 s2 prow (i + 1)) (i + 1)

def levCore (s1 s2 : List Char) : ℕ :=
  if s2.isEmpty then s1.length
  else (levRows s1 s2 (List.range (s2.length + 1)) 0).getLastD 0

/-- Model of `_levenshtein` (its value is only stored in brand-spoofing
hits, never used for scoring). -/
def levenshtein (s1 s2 : List Char) : ℕ :=
  if s1.length < s2.length then levCore s2 s1 else levCore s1 s2

/-- Model of `_detect_homographs`: one entry per occurrence of a confusable
character (the formatted `U+XXXX looks like ...` message is abstracted to
the character itself). -/
def detect_homographs (domain : List Char) : List Char :=
  domain.filter (fun c => (HOMOGRAPH_MAP.map Prod.fst).contains c)

/-- Model of `_detect_brand_spoofing`, including the hit-label strings. -/
def detect_brand_spoofing (domain : List Char) : List (List Char × ℕ) :=
  let dl := pyLower domain
  (TARGET_BRANDS.map (fun bv =>
    (if containsSeg bv.1 dl ∧ dl.takeWhile (fun c => c ≠ '.') ≠ bv.1 then
      [(bv.1, 0)]
    else []) ++
    (bv.2.filter (fun v => containsSeg v dl)).map (fun v =>
      (bv.1 ++ ( " (variant: ".toList) ++ v ++ ( ")".toList),
        levenshtein v bv.1)))).flatten

/-! ## The twelve checks of `analyze_url`

Each check is modelled as a penalty function.  All penalties are exact
rationals except the entropy penalty, which is a real number via
`Real.logb`.  Machine floats are modelled exactly; `round(x, n)` is
modelled as rounding `x * 10^n` to the nearest integer (Python's
round-half-to-even and this rounding differ only at exact midpoints,
which no claim touches). -/

def pyRound2Q (x : ℚ) : ℚ := ((round (x * 100) : ℤ) : ℚ) / 100

def pyRound3Q (x : ℚ) : ℚ := ((round (x * 1000) : ℤ) : ℚ) / 1000

noncomputable def pyRound2R (x : ℝ) : ℝ := ((round (x * 100) : ℤ) : ℝ) / 100

noncomputable def pyRound3R (x : ℝ) : ℝ := ((round (x * 1000) : ℤ) : ℝ) / 1000

/-- Check 1: long domain. -/
def domain_length_penalty (host : List Char) : ℚ :=
  if 30 < host.length then min (((host.length : ℚ) - 30) * (1 / 2)) 12 else 0

/-- Check 2: high host entropy. -/
noncomputable def entropy_penalty (host : List Char) : ℝ :=
  if 3.8 < shannon_entropy host then
    min ((shannon_entropy host - 3.8) * 8) 15
  else 0

def hyphenCount (host : List Char) : ℕ := host.count '-'

/-- Check 3: multiple hyphens. -/
def hyphen_penalty (host : List Char) : ℚ :=
  if 2 ≤ hyphenCount host then min ((hyphenCount host : ℚ) * 3) 12 else 0

def found_keywords (full : List Char) : List (List Char) :=
  SUSPICIOUS_KEYWORDS.filter (fun kw => containsSeg kw (pyLower full))

/-- Check 4: suspicious keywords in host+path. -/
def keyword_penalty (full : List Char) : ℚ :=
  if found_keywords full ≠ [] then
    min ((found_keywords full).length * 4 : ℚ) 20
  else 0

/-- Check 5: the first high-risk TLD table entry the host ends with
(iteration in dict order, first match wins). -/
def tld_score (host : List Char) : ℚ :=
  match HIGH_RISK_TLDS.find? (fun p => p.1.isSuffixOf host) with
  | some p => p.2
  | none => 0

/-- Check 6: raw IP literal host. -/
def ip_penalty (host : List Char) : ℚ :=
  if is_ip_address host then 15 else 0

/-- `host.count(".") - 1 if host else 0` (can be `-1`). -/
def subdomainDepth (host : List Char) : ℤ :=
  if host ≠ [] then (host.count '.' : ℤ) - 1 else 0

/-- Check 7: deep subdomains. -/
def subdomain_penalty (host : List Char) : ℚ :=
  if 3 ≤ subdomainDepth host then
    min (((subdomainDepth host : ℚ) - 2) * 4) 12
  else 0

/-- Check 8: homograph characters. -/
def homograph_penalty (host : List Char) : ℚ :=
  if detect_homographs host ≠ [] then
    min ((detect_homographs host).length * 8 : ℚ) 20
  else 0

/-- Check 9: brand spoofing. -/
def brand_penalty (host : List Char) : ℚ :=
  if detect_brand_spoofing host ≠ [] then
    min ((detect_brand_spoofing host).length * 8 : ℚ) 20
  else 0

def httpsName : List Char := "https".toList

/-- Check 10: missing https. -/
def https_penalty (scheme : List Char) : ℚ :=
  if scheme = httpsName then 0 else 5

/-- `len([p for p in path.split("/") if p])`. -/
def pathDepth (path : List Char) : ℕ :=
  ((path.splitOn '/').filter (fun p => !p.isEmpty)).length

/-- Check 11a: deep path. -/
def path_penalty (path : List Char) : ℚ :=
  if 5 < pathDepth path then min (((pathDepth path : ℚ) - 5) * 2) 8 else 0

/-- Check 11b: `@` anywhere in the (preprocessed) URL string. -/
def at_penalty (url : List Char) : ℚ :=
  if '@' ∈ url then 10 else 0

def digitRatio (host : List Char) : ℚ :=
  if host = [] then 0
  else ((host.filter Char.isDigit).length : ℚ) / (host.length : ℚ)

/-- Check 12: high digit ratio. -/
def digit_penalty (host : List Char) : ℚ :=
  if 3 / 10 < digitRatio host then min (digitRatio host * 20) 10 else 0

/-! ## `analyze_url` (src/core/heuristic_engine.py, lines 138-305) -/

/-- One entry of the `reasoning` list.  The formatted message strings of
the source are abstracted to the data they mention; which entries appear,
their order and their count are modelled exactly. -/
inductive Reason where
  | long_domain (len : ℕ) (penalty : ℚ)
  | high_entropy (entropy penalty : ℝ)
  | many_hyphens (count : ℕ) (penalty : ℚ)
  | keywords (found : List (List Char)) (penalty : ℚ)
  | risky_tld (penalty : ℚ)
  | ip_host
  | deep_subdomains (depth : ℤ) (penalty : ℚ)
  | homograph_found (chars : List Char) (penalty : ℚ)
  | brand_spoof (hits : List (List Char × ℕ)) (penalty : ℚ)
  | no_https
  | deep_path (depth : ℕ) (penalty : ℚ)
  | at_sign
  | high_digit_ratio (ratio : ℚ) (penalty : ℚ)
  | no_indicators

/-- The `features` dict (the keys in source order; formatted values are
kept as raw data). -/
structure Features where
  domain_length : ℕ
  entropy : ℝ
  hyphen_count : ℕ
  suspicious_keywords : List (List Char)
  tld_risk : ℚ
  is_ip : Bool
  subdomain_depth : ℕ
  homograph_chars : List Char
  brand_spoofing : List (List Char × ℕ)
  uses_https : Bool
  path_depth : ℕ
  has_at_sign : Bool
  digit_ratio : ℚ

structure AnalysisResult where
  risk_score : ℝ
  classification : String
  confidence : ℝ
  features : Features
  reasoning : List Reason
  engine : String

/-- The reasoning lines, in source order (note check 11 can append two). -/
noncomputable def reasonsOf (url : List Char) (host path scheme : List Char) :
    List Reason :=
  (if 30 < host.length then
    [Reason.long_domain host.length (domain_length_penalty host)] else []) ++
  (if 3.8 < shannon_entropy host then
    [Reason.high_entropy (shannon_entropy host) (entropy_penalty host)]
  else []) ++
  (if 2 ≤ hyphenCount host then
    [Reason.many_hyphens (hyphenCount host) (hyphen_penalty host)] else []) ++
  (if found_keywords (host ++ path) ≠ [] then
    [Reason.keywords (found_keywords (host ++ path))
      (keyword_penalty (host ++ path))] else []) ++
  (if tld_score host ≠ 0 then [Reason.risky_tld (tld_score host)] else []) ++
  (if is_ip_address host then [Reason.ip_host] else []) ++
  (if 3 ≤ subdomainDepth host then
    [Reason.deep_subdomains (subdomainDepth host) (subdomain_penalty host)]
  else []) ++
  (if detect_homographs host ≠ [] then
    [Reason.homograph_found (detect_homographs host) (homograph_penalty host)]
  else []) ++
  (if detect_brand_spoofing host ≠ [] then
    [Reason.brand_spoof (detect_brand_spoofing host) (brand_penalty host)]
  else []) ++
  (if scheme = httpsName then [] else [Reason.no_https]) ++
  (if 5 < pathDepth path then
    [Reason.deep_path (pathDepth path) (path_penalty path)] else []) ++
  (if '@' ∈ url then [Reason.at_sign] else []) ++
  (if 3 / 10 < digitRatio host then
    [Reason.high_digit_ratio (digitRatio host) (digit_penalty host)] else [])

/-- The sum of the eleven exact-rational penalties (every check except
entropy).  Real addition is commutative and associative, so grouping the
running float sum this way is faithful up to the float/real abstraction. -/
def qScore (url : List Char) (host path scheme : List Char) : ℚ :=
  domain_length_penalty host + hyphen_penalty host +
    keyword_penalty (host ++ path) + tld_score host + ip_penalty host +
    subdomain_penalty host + homograph_penalty host + brand_penalty host +
    https_penalty scheme + path_penalty path + at_penalty url +
    digit_penalty host

/-- `score = max(0.0, min(100.0, score))`. -/
noncomputable def clampedScore (url : List Char) (host path scheme : List Char) :
    ℝ :=
  max 0 (min 100 (entropy_penalty host + (qScore url host path scheme : ℝ)))

/-- The classification branch of `analyze_url`. -/
noncomputable def classifyScore (s : ℝ) : String :=
  if s < 30 then "Safe" else if s < 65 then "Suspicious" else "Phishing"

noncomputable def analyzeSplit (url : List Char) (sp : UrlSplit) :
    AnalysisResult :=
  let host := hostnameOf sp.netloc
  let path := sp.path
  let reasons := reasonsOf url host path sp.scheme
  { risk_score := pyRound2R (clampedScore url host path sp.scheme)
    classification := classifyScore (clampedScore url host path sp.scheme)
    confidence :=
      pyRound3R (min ((1 : ℝ) / 2 + ((reasons.length : ℝ) / 12) * (1 / 2)) 1)
    features :=
      { domain_length := host.length
        entropy := pyRound3R (shannon_entropy host)
        hyphen_count := hyphenCount host
        suspicious_keywords := found_keywords (host ++ path)
        tld_risk := tld_score host
        is_ip := is_ip_address host
        subdomain_depth := (max (subdomainDepth host) 0).toNat
        homograph_chars := detect_homographs host
        brand_spoofing := detect_brand_spoofing host
        uses_https := decide (sp.scheme = httpsName)
        path_depth := pathDepth path
        has_at_sign := decide ('@' ∈ url)
        digit_ratio := pyRound3Q (digitRatio host) }
    reasoning := if reasons.isEmpty then [Reason.no_indicators] else reasons
    engine := "Heuristic Engine v2.0" }

/-- `url = unquote(url).strip()` plus the scheme default. -/
def preprocess (l : List Char) : List Char :=
  ensureScheme (pyStrip (pyUnquote l))

/-- `analyze_url`.  The failure modes are the `ValueError`s out of
`urlparse`: a netloc with mismatched brackets, or one that is NFKC-unsafe. -/
noncomputable def analyze_url (s : String) : Except ParseErr AnalysisResult :=
  (urlparseE (preprocess s.toList)).map (analyzeSplit (preprocess s.toList))

/-! ## `_build_result` (src/core/api_client.py, lines 146-184) -/

structure VtStats where
  malicious : ℕ
  suspicious : ℕ
  harmless : ℕ
  undetected : ℕ
deriving Repr, DecidableEq

/-- The dict returned by `_build_result` (the three formatted reasoning
strings are determined by `raw_stats` and are abstracted away). -/
structure VtResult where
  risk_score : ℚ
  classification : String
  confidence : ℚ
  engine : String
  api_used : Bool
  raw_stats : VtStats
deriving Repr, DecidableEq

def build_result (_url : String) (s : VtStats) : VtResult :=
  let total0 := s.malicious + s.suspicious + s.harmless + s.undetected
  let total := if total0 = 0 then 1 else total0
  let ratio : ℚ := ((s.malicious + s.suspicious : ℕ) : ℚ) / (total : ℚ)
  let risk := pyRound2Q (ratio * 100)
  { risk_score := risk
    classification :=
      if risk < 15 then "Safe"
      else if risk < 50 then "Suspicious"
      else "Phishing"
    confidence := pyRound3Q (min ((total : ℚ) / 70) 1)
    engine := "VirusTotal API (" ++ toString total ++ " engines)"
    api_used := true
    raw_stats := s }

/-! ## `scan_url` (src/core/api_client.py, lines 70-143)

The network is abstracted into parameters: the response to the one
submission POST, and the response to the i-th poll GET.  The observable
protocol actions (rate-limiter acquisitions, the submission, the fixed
5-second sleeps, poll attempts) are recorded as an event trace in
execution order.  Each `RuntimeError` message becomes an `ApiErr`
constructor; the `ValueError` that `_normalize_url` can raise through
`scan_url` is `normalizeFailed`. -/

inductive ApiErr where
  | notConfigured
  | normalizeFailed (e : ParseErr)
  | authError
  | rateLimited
  | submissionFailed (code : ℕ)
  | badSubmitJson
  | submitNetError
  | timedOut
deriving Repr, DecidableEq

inductive SubmitResp where
  | netError
  | status (code : ℕ) (analysisId : Option String)
deriving Repr, DecidableEq

inductive PollResp where
  | netError
  | resp (code : ℕ) (status : Option String) (stats : VtStats)
deriving Repr, DecidableEq

inductive Ev where
  | rate
  | submitReq
  | sleep (secs : ℕ)
  | pollReq
deriving Repr, DecidableEq

/-- A poll iteration reaches the `status == "completed"` branch only on an
HTTP 200 response whose status field is `completed`; a network error or
any other response just continues the loop. -/
def completedPoll : PollResp → Bool
  | .resp code st _ => code = 200 && st = some "completed"
  | .netError => false

def pollStats : PollResp → VtStats
  | .resp _ _ s => s
  | .netError => ⟨0, 0, 0, 0⟩

/-- `for _ in range(12): time.sleep(5); _rate_limit_wait(); ...` — the
polling loop, counting down the remaining iterations. -/
def pollLoop (polls : ℕ → PollResp) (url : String) :
    ℕ → ℕ → Except ApiErr VtResult × List Ev
  | _, 0 => (.error .timedOut, [])
  | i, r + 1 =>
      let evs := [Ev.sleep 5, Ev.rate, Ev.pollReq]
      if completedPoll (polls i) then
        (.ok (build_result url (pollStats (polls i))), evs)
      else
        let k := pollLoop polls url (i + 1) r
        (k.1, evs ++ k.2)

def scan_url (key : Option String) (submit : SubmitResp)
    (polls : ℕ → PollResp) (rawUrl : String) :
    Except ApiErr VtResult × List Ev :=
  match key with
  | none => (.error .notConfigured, [])
  | some _ =>
    match normalize_url rawUrl with
    | .error e => (.error (.normalizeFailed e), [])
    | .ok url =>
      let pre := [Ev.rate, Ev.submitReq]
      match submit with
      | .netError => (.error .submitNetError, pre)
      | .status code idOpt =>
        if code = 401 then (.error .authError, pre)
        else if code = 429 then (.error .rateLimited, pre)
        else if code ≠ 200 ∧ code ≠ 201 then
          (.error (.submissionFailed code), pre)
        else
          match idOpt with
          | none => (.error .badSubmitJson, pre)
          | some _ =>
            let k := pollLoop polls url 0 12
            (k.1, pre ++ k.2)

/-! ## `_rate_limit_wait` (src/core/api_client.py, lines 41-51)

State: the shared `_request_times` list.  Time is rational; `time.sleep`
is modelled as advancing the clock by exactly the requested amount, and
the time consumed by the body of the call itself as zero.  One acquisition
at wall-clock time `now` prunes entries with `now - t >= 60`, sleeps when
four or more remain, then appends the post-sleep timestamp. -/

def rlAcquire (now : ℚ) (st : List ℚ) : ℚ × List ℚ :=
  let pruned := st.filter (fun t => now - t < 60)
  if 4 ≤ pruned.length then
    let sleepTime := 60 - (now - pruned.headD 0) + 1 / 2
    let t := now + max sleepTime 0
    (t, pruned ++ [t])
  else (now, pruned ++ [now])

/-- A sequence of acquisitions: the i-th call happens `δᵢ` after the
previous call returned (back-to-back calls have `δᵢ = 0`).  Returns the
list of admission timestamps in order. -/
def rlRun : List ℚ → List ℚ → ℚ → List ℚ
  | [], _, _ => []
  | δ :: rest, st, clock =>
      let now := clock + δ
      let a := rlAcquire now st
      a.1 :: rlRun rest a.2 a.1

/-! ## The orchestrator `_run_scan` (src/ui/scanner_tab.py, lines 313-360)

The three engines are tried in order API → ML → heuristic.  The API call
and the ML model are external effects, abstracted into parameters
(`apiOutcome` is what `scan_url` did; `mlOutcome` is `predict`'s value,
`none` covering both `None` and a falsy dict).  `insert_scan` only
persists the result and is modelled as a non-failing no-op.  An exception
out of `analyze_url` is caught by the outer handler and becomes the
degraded error dict, modelled by `.failure`. -/

structure MlResult where
  risk_score : ℚ
  classification : String
  confidence : ℚ
deriving Repr, DecidableEq

inductive ScanOutput where
  | api (r : VtResult)
  | ml (r : MlResult) (api_used : Bool)
  | heuristic (r : AnalysisResult) (api_used : Bool)
  | failure (e : ParseErr)

noncomputable def runScan (keyAvail : Bool)
    (apiOutcome : Except ApiErr VtResult) (mlAvail : Bool)
    (mlOutcome : Option MlResult) (url : String) : ScanOutput :=
  let apiRes : Option VtResult := if keyAvail then apiOutcome.toOption else none
  match apiRes with
  | some r => .api r
  | none =>
    match (if mlAvail then mlOutcome else none) with
    | some m => .ml m false
    | none =>
      match analyze_url url with
      | .ok r => .heuristic r false
      | .error e => .failure e

/-! ## Spec-side definitions

These follow the specification's words (not the code) and exist to be
compared against the embedded code. -/

/-- The classification bucket dictated by the spec's §4.2 thresholds:
`score < 30 → Safe; 30 ≤ score < 65 → Suspicious; score ≥ 65 → Phishing`
(rational-valued scores). -/
def spec_bucket (x : ℚ) : String :=
  if x < 30 then "Safe" else if x < 65 then "Suspicious" else "Phishing"

/-- The spec's §4.2 bucket for real-valued scores. -/
noncomputable def spec_bucketR (x : ℝ) : String :=
  if x < 30 then "Safe" else if x < 65 then "Suspicious" else "Phishing"

/-- The bucket actually used by `_build_result`: thresholds 15 and 50. -/
def vt_bucket (x : ℚ) : String :=
  if x < 15 then "Safe" else if x < 50 then "Suspicious" else "Phishing"

/-! ## Derived definitions used by the proofs -/

/-- One poll iteration's event block: the fixed 5-second delay, a
rate-limiter acquisition, then the GET attempt. -/
def pollBlock : List Ev := [Ev.sleep 5, Ev.rate, Ev.pollReq]

/-- The clamped total score `analyze_url` classifies from (defaulting to 0
on the unreachable parse-error case), as a function of the raw URL. -/
noncomputable def clampedScoreOf (s : String) : ℝ :=
  match urlparseE (preprocess s.toList) with
  | .ok sp => clampedScore (preprocess s.toList) (hostnameOf sp.netloc) sp.path
      sp.scheme
  | .error _ => 0

/-- The result `analyze_url ""` produces: `""` preprocesses to `http://`,
whose host, path and query are all empty, so the only check that fires is
the missing-https one (+5). -/
noncomputable def emptyUrlResult : AnalysisResult :=
  { risk_score := 5
    classification := "Safe"
    confidence := 271 / 500
    features :=
      { domain_length := 0
        entropy := 0
        hyphen_count := 0
        suspicious_keywords := []
        tld_risk := 0
        is_ip := false
        subdomain_depth := 0
        homograph_chars := []
        brand_spoofing := []
        uses_https := false
        path_depth := 0
        has_at_sign := false
        digit_ratio := 0 }
    reasoning := [Reason.no_https]
    engine := "Heuristic Engine v2.0" }

/-- The URL named by claim C3. -/
def demoUrl : String := "http://paypa1-secure-login.tk/verify/account/update"

/-- Its host as parsed. -/
def demoHost : List Char := "paypa1-secure-login.tk".toList

/-- Its path as parsed. -/
def demoPath : List Char := "/verify/account/update".toList

open List in
/-- Any five admissions (as an in-order subsequence of the history) span
at least 60 seconds. -/
def gapInv (A : List ℚ) : Prop :=
  ∀ a b c d e : ℚ, [a, b, c, d, e] <+ A → a + 60 ≤ e

/-- The rate-limiter state invariant: `A` is the admission history, `st`
the shared `_request_times` list, `clock` the current time. -/
structure RlInv (A st : List ℚ) (clock : ℚ) : Prop where
  split : ∃ B, A = B ++ st ∧ ∀ b ∈ B, b + 60 ≤ clock
  le_clock : ∀ a ∈ A, a ≤ clock
  sorted : A.Pairwise (· ≤ ·)
  gap : gapInv A

/-- The ten decimal digit characters. -/
def digitChars : List Char :=
  [ '0', '1', '2', '3', '4', '5', '6', '7', '8', '9']

/-- C2, counterexample: with detector statistics 1 malicious / 0 suspicious
/ 4 harmless / 0 undetected the detection ratio is 1/5, so
`risk_score = 20 < 30`, yet `_build_result` classifies it `Suspicious`,
not the `Safe` the §4.2 thresholds would dictate.  The client's
classification is therefore not consistent with the §4.2 thresholds. -/
theorem C2_counterexample :
    (build_result "u" ⟨1, 0, 4, 0⟩).risk_score < 30 ∧
      (build_result "u" ⟨1, 0, 4, 0⟩).classification ≠
        spec_bucket (build_result "u" ⟨1, 0, 4, 0⟩).risk_score := by
  constructor
  · norm_num [build_result, pyRound2Q, round_eq]
  · norm_num [build_result, spec_bucket, pyRound2Q, round_eq]
    decide

/-- C2, amended: the reputation client's `risk_score` and `classification`
are mutually consistent with the thresholds the client actually uses —
`risk_score < 15 → Safe`, `15 ≤ risk_score < 50 → Suspicious`,
`risk_score ≥ 50 → Phishing` — for every set of detector statistics. -/
theorem C2_amended (u : String) (s : VtStats) :
    (build_result u s).classification = vt_bucket (build_result u s).risk_score := by
  simp only [build_result, vt_bucket]

/-! ## Claim C9 — which ports normalization drops -/

/-- C9, counterexample: the claim says port 443 on an `http` URL is kept;
the code drops any port in `(80, 443)` (and a falsy port 0) regardless of
scheme, so `http://host:443/x` normalizes to `http://host/x` with the
port gone. -/
theorem C9_counterexample :
    normalize_url "http://host:443/x" = .ok "http://host/x" := by decide

/-- C9, amended: normalization drops an explicit port if and only if it is
0, 80 or 443, regardless of scheme: the port segment appended by
`_normalize_url` is empty exactly for an absent port or one of those three
values. -/
theorem C9_amended (p : Option ℕ) :
    portSegment p = [] ↔ p = none ∨ p = some 0 ∨ p = some 80 ∨ p = some 443 := by
  cases p with
  | none => simp [portSegment]
  | some n =>
    simp only [portSegment, Option.some.injEq, reduceCtorEq, false_or]
    by_cases h : n = 0 ∨ n = 80 ∨ n = 443
    · simp only [if_pos h]
      simpa using h
    · rw [if_neg h]
      constructor
      · intro hc
        exact absurd hc (List.cons_ne_nil _ _)
      · intro hc
        simp only [Option.some.injEq] at hc
        exact absurd hc h

/-! ## Claim C7 — totality of normalization -/

/-- C10: the IP-literal check fires for every non-empty host made only of
hexadecimal digits and colons — even with no dot and no colon at all —
because the IPv6 alternative of the regex accepts any such string, and
the +15 penalty then applies. -/
theorem C10_hex_host_is_ip (host : String) (h1 : host ≠ "")
    (h2 : ∀ c ∈ host.toList, (isHexDigitChar c || c = ':') = true) :
    is_ip_address host.toList = true ∧ ip_penalty host.toList = 15 := by
  have hne : host.toList ≠ [] := by
    intro hc
    exact h1 (String.ext hc)
  have hv6 : ipv6Like host.toList = true := by
    have hhead : host.toList.head? ≠ some '[' := by
      intro hc
      have hmem : '[' ∈ host.toList := List.mem_of_mem_head? (by rw [hc]; rfl)
      have := h2 _ hmem
      simp [isHexDigitChar] at this
    have hlast : host.toList.getLast? ≠ some ']' := by
      intro hc
      have hmem : ']' ∈ host.toList := List.mem_of_mem_getLast? (by rw [hc]; rfl)
      have := h2 _ hmem
      simp [isHexDigitChar] at this
    have hL : stripBracketL host.toList = host.toList := if_neg hhead
    unfold ipv6Like
    rw [hL]
    rw [stripBracketR, if_neg hlast]
    simp only [Bool.and_eq_true, Bool.not_eq_eq_eq_not, Bool.not_true,
      List.all_eq_true]
    refine ⟨List.isEmpty_eq_false.mpr hne, ?_⟩
    intro c hc
    simpa [hexColonChar] using h2 c hc
  constructor
  · unfold is_ip_address
    rw [hv6]
    simp
  · unfold ip_penalty is_ip_address
    rw [hv6]
    simp

/-- Witness for C10 at the concrete host `cafe`. -/
theorem C10_hex_host_is_ip_witness :
    is_ip_address ( "cafe".toList) = true ∧ ip_penalty ( "cafe".toList) = 15 :=
  C10_hex_host_is_ip "cafe" (by decide) (by decide)

/-! ## Claim C5 — submit/poll protocol of `scan_url` -/

/-- If no poll in the remaining budget completes, the loop runs its full
budget and times out, emitting one `pollBlock` per attempt. -/
theorem pollLoop_timeout (polls : ℕ → PollResp) (url : String) :
    ∀ r i, (∀ j, i ≤ j → j < i + r → completedPoll (polls j) = false) →
      pollLoop polls url i r =
        (.error .timedOut, (List.replicate r pollBlock).flatten) := by
  intro r
  induction r with
  | zero => intro i _; rfl
  | succ n ih =>
    intro i h
    have h0 : completedPoll (polls i) = false := h i le_rfl (by omega)
    have hrest := ih (i + 1) (fun j hj1 hj2 => h j (by omega) (by omega))
    unfold pollLoop
    rw [h0, hrest]
    simp [pollBlock, List.replicate_succ]

/-- C5: with a configured key and a normalizable URL, (a) a submission
answered HTTP 401 fails with the auth-error kind having performed only the
initial rate-limited submission — no poll attempt, no delay; and (b) if no
poll ever reaches status `completed`, the call fails with the timed-out
kind after exactly 12 poll attempts beyond the one submission, each
attempt preceded by the fixed 5-second sleep and a rate-limiter
acquisition. -/
theorem C5_submit_poll_protocol (k raw v : String)
    (hnorm : normalize_url raw = .ok v) (idOpt : Option String)
    (polls : ℕ → PollResp) :
    scan_url (some k) (.status 401 idOpt) polls raw =
      (.error .authError, [Ev.rate, Ev.submitReq]) ∧
    (∀ sid : String, (∀ i, i < 12 → completedPoll (polls i) = false) →
      scan_url (some k) (.status 200 (some sid)) polls raw =
        (.error .timedOut,
          [Ev.rate, Ev.submitReq] ++ (List.replicate 12 pollBlock).flatten)) := by
  constructor
  · simp [scan_url, hnorm]
  · intro sid hp
    have hloop := pollLoop_timeout polls v 12 0 (fun j h1 h2 => hp j (by omega))
    simp [scan_url, hnorm, hloop]

/-- Witness for C5: a concrete key, URL and an all-network-error poll
oracle. -/
theorem C5_submit_poll_protocol_witness :
    scan_url (some "K") (.status 401 none) (fun _ => PollResp.netError)
        "http://a/" = (.error .authError, [Ev.rate, Ev.submitReq]) ∧
      scan_url (some "K") (.status 200 (some "id"))
          (fun _ => PollResp.netError) "http://a/" =
        (.error .timedOut,
          [Ev.rate, Ev.submitReq] ++ (List.replicate 12 pollBlock).flatten) := by
  have h := C5_submit_poll_protocol "K" "http://a/" "http://a/" (by decide)
    none (fun _ => PollResp.netError)
  exact ⟨h.1, h.2 "id" (fun i _ => rfl)⟩

/-! ## Bounds for the entropy penalty and the rounding helpers -/

theorem entropy_penalty_nonneg (host : List Char) : 0 ≤ entropy_penalty host := by
  unfold entropy_penalty
  split
  · rename_i h
    have h8 : (0 : ℝ) ≤ (shannon_entropy host - 3.8) * 8 := by nlinarith
    exact le_min h8 (by norm_num)
  · exact le_refl 0

theorem entropy_penalty_le_15 (host : List Char) : entropy_penalty host ≤ 15 := by
  unfold entropy_penalty
  split
  · exact min_le_right _ _
  · norm_num

theorem pyRound2R_nonneg (x : ℝ) (h : 0 ≤ x) : 0 ≤ pyRound2R x := by
  unfold pyRound2R
  have hf : (0 : ℤ) ≤ round (x * 100) := by
    rw [round_eq]
    have h1 : (0 : ℝ) ≤ x * 100 + 1 / 2 := by nlinarith
    have := Int.floor_nonneg.mpr h1
    simpa using this
  have : (0 : ℝ) ≤ ((round (x * 100) : ℤ) : ℝ) := by exact_mod_cast hf
  linarith

theorem pyRound2R_le_100 (x : ℝ) (h : x ≤ 100) : pyRound2R x ≤ 100 := by
  unfold pyRound2R
  have hf : round (x * 100) ≤ (10000 : ℤ) := by
    rw [round_eq]
    have h1 : x * 100 + 1 / 2 ≤ (10000 : ℝ) + 1 / 2 := by nlinarith
    calc ⌊x * 100 + 1 / 2⌋ ≤ ⌊(10000 : ℝ) + 1 / 2⌋ := Int.floor_mono h1
      _ = 10000 := by norm_num
  have : ((round (x * 100) : ℤ) : ℝ) ≤ 10000 := by exact_mod_cast hf
  linarith

theorem pyRound2R_le_of_le (x b : ℝ) (h : x ≤ b) : pyRound2R x ≤ b + 1 / 200 := by
  unfold pyRound2R
  have hf : ((round (x * 100) : ℤ) : ℝ) ≤ x * 100 + 1 / 2 := by
    rw [round_eq]
    exact_mod_cast Int.floor_le (x * 100 + 1 / 2)
  linarith

theorem le_pyRound2R_of_le (a x : ℝ) (h : a ≤ x) : a - 1 / 200 ≤ pyRound2R x := by
  unfold pyRound2R
  have hf : x * 100 + 1 / 2 - 1 ≤ ((round (x * 100) : ℤ) : ℝ) := by
    rw [round_eq]
    have := Int.sub_one_lt_floor (x * 100 + 1 / 2)
    push_cast at this ⊢
    linarith
  linarith

theorem clampedScore_nonneg (url host path scheme : List Char) :
    0 ≤ clampedScore url host path scheme :=
  le_max_left 0 _

theorem clampedScore_le_100 (url host path scheme : List Char) :
    clampedScore url host path scheme ≤ 100 :=
  max_le (by norm_num) (min_le_left _ _)

/-! ## Claim C1 — heuristic score bounds and classification buckets -/


/-- C1: whenever `analyze_url` returns a result, its `risk_score` lies in
`[0, 100]` and its `classification` is exactly the §4.2 bucket of the
clamped total score (`score < 30 → Safe`, `30 ≤ score < 65 → Suspicious`,
`score ≥ 65 → Phishing`). -/
theorem C1_score_bounds_and_bucket (url : String) (r : AnalysisResult)
    (h : analyze_url url = .ok r) :
    0 ≤ r.risk_score ∧ r.risk_score ≤ 100 ∧
      r.classification = spec_bucketR (clampedScoreOf url) := by
  unfold analyze_url at h
  cases he : urlparseE (preprocess url.toList) with
  | error e =>
    rw [he] at h
    exact absurd h (by simp [Except.map])
  | ok sp =>
    rw [he] at h
    simp only [Except.map, Except.ok.injEq] at h
    subst h
    refine ⟨?_, ?_, ?_⟩
    · exact pyRound2R_nonneg _ (clampedScore_nonneg _ _ _ _)
    · exact pyRound2R_le_100 _ (clampedScore_le_100 _ _ _ _)
    · show classifyScore _ = _
      unfold clampedScoreOf
      rw [he]
      rfl

/-! ## Evaluation of `analyze_url` at the empty URL

`""` preprocesses to `http://`, whose host, path and query are all empty:
the only check that fires is the missing-https one (+5). -/

theorem shannon_entropy_nil : shannon_entropy [] = 0 := by
  unfold shannon_entropy
  simp

theorem entropy_penalty_nil : entropy_penalty [] = 0 := by
  unfold entropy_penalty
  rw [shannon_entropy_nil]
  norm_num

theorem qScore_httpPrefix :
    qScore httpPrefix [] [] ( "http".toList) = 5 := by
  have h1 : domain_length_penalty [] = 0 := by decide
  have h2 : hyphen_penalty [] = 0 := by decide
  have h3 : keyword_penalty [] = 0 := by decide
  have h4 : tld_score [] = 0 := by decide
  have h5 : ip_penalty [] = 0 := by decide
  have h6 : subdomain_penalty [] = 0 := by decide
  have h7 : homograph_penalty [] = 0 := by decide
  have h8 : brand_penalty [] = 0 := by decide
  have h9 : https_penalty ( "http".toList) = 5 := by decide
  have h10 : path_penalty [] = 0 := by decide
  have h11 : at_penalty httpPrefix = 0 := by decide
  have h12 : digit_penalty [] = 0 := by
    norm_num [digit_penalty, digitRatio]
  unfold qScore
  rw [List.nil_append] at *
  rw [h1, h2, h3, h4, h5, h6, h7, h8, h9, h10, h11, h12]
  norm_num

theorem reasonsOf_httpPrefix :
    reasonsOf httpPrefix [] [] ( "http".toList) = [Reason.no_https] := by
  have h3 : ¬ found_keywords ([] ++ []) ≠ [] := by decide
  have h4 : ¬ tld_score [] ≠ 0 := by decide
  have h5 : is_ip_address [] = false := by decide
  have h6 : ¬ (3 : ℤ) ≤ subdomainDepth [] := by decide
  have h7 : ¬ detect_homographs [] ≠ [] := by decide
  have h8 : ¬ detect_brand_spoofing [] ≠ [] := by decide
  have h9 : ( "http".toList) ≠ httpsName := by decide
  have h11 : ¬ '@' ∈ httpPrefix := by decide
  have h12 : ¬ (3 / 10 : ℚ) < digitRatio [] := by norm_num [digitRatio]
  have h13 : pathDepth ([] : List Char) = 0 := by decide
  have h14 : hyphenCount ([] : List Char) = 0 := by decide
  unfold reasonsOf
  rw [if_neg h3, if_neg h4, if_neg h6, if_neg h7, if_neg h8, if_neg h9,
    if_neg h11, if_neg h12]
  rw [shannon_entropy_nil]
  norm_num [h5, h13, h14]

theorem analyze_url_empty : analyze_url "" = .ok emptyUrlResult := by
  have hpre : preprocess ( "".toList) = httpPrefix := by decide
  have hsplit : urlparseE httpPrefix =
      .ok ⟨( "http".toList), [], [], []⟩ := by decide
  unfold analyze_url
  rw [hpre, hsplit]
  simp only [Except.map]
  congr 1
  have hhost : hostnameOf [] = [] := by decide
  simp only [analyzeSplit, hhost]
  have hclamp : clampedScore httpPrefix [] [] ( "http".toList) = 5 := by
    unfold clampedScore
    rw [entropy_penalty_nil, qScore_httpPrefix]
    norm_num
  rw [hclamp, reasonsOf_httpPrefix]
  unfold emptyUrlResult
  simp only [AnalysisResult.mk.injEq, Features.mk.injEq]
  refine ⟨?_, ?_, ?_, ?_, ?_⟩
  · unfold pyRound2R
    norm_num [round_eq]
  · unfold classifyScore
    norm_num
  · norm_num [pyRound3R, round_eq]
  · refine ⟨by decide, ?_, by decide, by decide, by decide, by decide,
      by decide, by decide, by decide, by decide, by decide, by decide, ?_⟩
    · rw [shannon_entropy_nil]
      norm_num [pyRound3R, round_eq]
    · norm_num [digitRatio, pyRound3Q, round_eq]
  · simp

/-- Witness for C1 at the concrete URL `""`. -/
theorem C1_score_bounds_and_bucket_witness :
    0 ≤ emptyUrlResult.risk_score ∧ emptyUrlResult.risk_score ≤ 100 ∧
      emptyUrlResult.classification = spec_bucketR (clampedScoreOf "") :=
  C1_score_bounds_and_bucket "" emptyUrlResult analyze_url_empty

/-! ## Claim C4 — orchestrator fallback to the heuristic engine -/

/-- C4: when the configured reputation client fails with any of its error
kinds and no statistical model is available, `_run_scan` emits exactly the
heuristic scorer's result for that URL, with `api_used = false` (whatever
value the unused ML collaborator parameter has). -/
theorem C4_fallback_to_heuristic (e : ApiErr) (mlo : Option MlResult)
    (url : String) (r : AnalysisResult) (h : analyze_url url = .ok r) :
    runScan true (.error e) false mlo url = .heuristic r false := by
  unfold runScan
  simp [Except.toOption, h]

/-- Witness for C4 at the concrete URL `""`. -/
theorem C4_fallback_to_heuristic_witness :
    runScan true (.error .authError) false none "" =
      .heuristic emptyUrlResult false :=
  C4_fallback_to_heuristic .authError none "" emptyUrlResult analyze_url_empty

/-! ## Claim C3 — the spec's phishing test URL

Evaluation of `analyze_url` at
`http://paypa1-secure-login.tk/verify/account/update`:
keyword, brand-spoofing and TLD checks do fire (and hyphen and https),
but the total is `47 + entropy_penalty ≤ 47 + 15 = 62 < 65`, so the
result is Suspicious, not Phishing. -/

theorem demo_pre : preprocess demoUrl.toList = demoUrl.toList := by decide

theorem demo_split : urlparseE demoUrl.toList =
    .ok ⟨( "http".toList), demoHost, demoPath, []⟩ := by decide

theorem demo_hostname : hostnameOf demoHost = demoHost := by decide

theorem analyze_url_demo : analyze_url demoUrl =
    .ok (analyzeSplit demoUrl.toList ⟨( "http".toList), demoHost, demoPath, []⟩) := by
  unfold analyze_url
  rw [demo_pre, demo_split]
  rfl

theorem demo_qScore : qScore demoUrl.toList demoHost demoPath ( "http".toList) = 47 := by
  have h1 : domain_length_penalty demoHost = 0 := by decide
  have h2 : hyphen_penalty demoHost = 6 := by
    have hc : hyphenCount demoHost = 2 := by decide
    simp [hyphen_penalty, hc, min_def]
    norm_num
  have h3 : keyword_penalty (demoHost ++ demoPath) = 20 := by
    have hne : found_keywords (demoHost ++ demoPath) ≠ [] := by decide
    have hk : (found_keywords (demoHost ++ demoPath)).length = 5 := by decide
    simp only [keyword_penalty, if_pos hne, hk]
    norm_num [min_def]
  have h4 : tld_score demoHost = 8 := by decide
  have h5 : ip_penalty demoHost = 0 := by decide
  have h6 : subdomain_penalty demoHost = 0 := by decide
  have h7 : homograph_penalty demoHost = 0 := by decide
  have h8 : brand_penalty demoHost = 8 := by
    have hne : detect_brand_spoofing demoHost ≠ [] := by decide
    have hb : (detect_brand_spoofing demoHost).length = 1 := by decide
    simp only [brand_penalty, if_pos hne, hb]
    norm_num [min_def]
  have h9 : https_penalty ( "http".toList) = 5 := by decide
  have h10 : path_penalty demoPath = 0 := by decide
  have h11 : at_penalty demoUrl.toList = 0 := by decide
  have h12 : digit_penalty demoHost = 0 := by
    have hf : (demoHost.filter Char.isDigit).length = 1 := by decide
    have hlen : demoHost.length = 22 := by decide
    have hr : digitRatio demoHost = 1 / 22 := by
      simp [digitRatio, hf, hlen, demoHost]
    norm_num [digit_penalty, hr]
  unfold qScore
  rw [h1, h2, h3, h4, h5, h6, h7, h8, h9, h10, h11, h12]
  norm_num

theorem demo_clamped_bounds :
    47 ≤ clampedScore demoUrl.toList demoHost demoPath ( "http".toList) ∧
      clampedScore demoUrl.toList demoHost demoPath ( "http".toList) ≤ 62 := by
  have h1 := entropy_penalty_nonneg demoHost
  have h2 := entropy_penalty_le_15 demoHost
  unfold clampedScore
  rw [demo_qScore]
  rw [min_eq_right (by push_cast; linarith), max_eq_right (by push_cast; linarith)]
  constructor <;> [skip; skip] <;> push_cast <;> linarith

/-- C3, counterexample: at the spec's own test URL the analyzer returns
classification `Suspicious` with `risk_score < 65`, refuting the claimed
Phishing classification. -/
theorem C3_counterexample :
    (match analyze_url demoUrl with
      | .ok r => r.classification = "Suspicious" ∧ r.risk_score < 65
      | .error _ => False) := by
  rw [analyze_url_demo]
  simp only [analyzeSplit, demo_hostname]
  have hb := demo_clamped_bounds
  constructor
  · unfold classifyScore
    rw [if_neg (by linarith), if_pos (by linarith)]
  · have := pyRound2R_le_of_le _ 62 hb.2
    linarith

/-- C3, amended: at
`http://paypa1-secure-login.tk/verify/account/update` the
suspicious-keyword, brand-spoofing and high-risk-TLD checks all fire,
but the result classifies as Suspicious with `30 ≤ risk_score < 65`
(the eleven rational-valued checks contribute exactly 47 and the entropy
check at most 15, so the total can never reach 65). -/
theorem C3_amended :
    (match analyze_url demoUrl with
      | .ok r =>
          r.features.suspicious_keywords ≠ [] ∧
          r.features.brand_spoofing ≠ [] ∧
          r.features.tld_risk = 8 ∧
          r.classification = "Suspicious" ∧
          30 ≤ r.risk_score ∧ r.risk_score < 65
      | .error _ => False) := by
  rw [analyze_url_demo]
  simp only [analyzeSplit, demo_hostname]
  have hb := demo_clamped_bounds
  refine ⟨by decide, by decide, by decide, ?_, ?_, ?_⟩
  · unfold classifyScore
    rw [if_neg (by linarith), if_pos (by linarith)]
  · have := le_pyRound2R_of_le 47 _ hb.1
    linarith
  · have := pyRound2R_le_of_le _ 62 hb.2
    linarith

/-! ## Claim C6 — the sliding-window rate limiter

Invariant: among the timestamps admitted so far (in admission order), any
five consecutive-in-order admissions span at least 60 seconds; the shared
list is a suffix of the admitted history whose dropped elements are at
least one window old. -/

open List

theorem gapInv_nil : gapInv [] := by
  intro a b c d e h
  have := h.length_le
  simp at this

theorem rlInv_init (clock : ℚ) : RlInv [] [] clock where
  split := ⟨[], by simp, by simp⟩
  le_clock := by simp
  sorted := List.Pairwise.nil
  gap := gapInv_nil

/-- A sorted timestamp list splits into its too-old prefix and its
in-window suffix: pruning keeps a suffix. -/
theorem filter_window_split (now : ℚ) : ∀ (st : List ℚ),
    st.Pairwise (· ≤ ·) →
    st = st.filter (fun t => !(decide (now - t < 60))) ++
      st.filter (fun t => decide (now - t < 60)) := by
  intro st
  induction st with
  | nil => intro _; rfl
  | cons x xs ih =>
    intro h
    have hx := List.pairwise_cons.mp h
    by_cases hw : now - x < 60
    · have hall : ∀ y ∈ x :: xs, decide (now - y < 60) = true := by
        intro y hy
        rcases List.mem_cons.mp hy with rfl | hy'
        · exact decide_eq_true hw
        · exact decide_eq_true (by have := hx.1 y hy'; linarith)
      have hneg : (x :: xs).filter (fun t => !(decide (now - t < 60))) = [] := by
        rw [List.filter_eq_nil_iff]
        intro y hy
        simp [hall y hy]
      have hpos : (x :: xs).filter (fun t => decide (now - t < 60)) = x :: xs :=
        List.filter_eq_self.mpr hall
      rw [hneg, hpos, List.nil_append]
    · have hxf : (decide (now - x < 60)) = false := decide_eq_false hw
      rw [List.filter_cons, List.filter_cons, hxf]
      simp only [Bool.not_false, if_true, Bool.false_eq_true, if_false]
      rw [List.cons_append]
      exact congrArg (x :: ·) (ih hx.2)

theorem dropped_old (now : ℚ) (st : List ℚ) :
    ∀ b ∈ st.filter (fun t => !(decide (now - t < 60))), b + 60 ≤ now := by
  intro b hb
  have h1 := List.of_mem_filter hb
  have h2 : decide (now - b < 60) = false := by simpa using h1
  have := of_decide_eq_false h2
  linarith

/-- Pruning never keeps five timestamps: four is the cap. -/
theorem pruned_le_four (A st B : List ℚ) (clock now : ℚ)
    (hAB : A = B ++ st) (hle : ∀ a ∈ A, a ≤ clock) (hg : gapInv A)
    (hnow : clock ≤ now) :
    (st.filter (fun t => decide (now - t < 60))).length ≤ 4 := by
  by_contra hc
  push_neg at hc
  set F := st.filter (fun t => decide (now - t < 60)) with hF
  rcases hp : F with _ | ⟨g0, _ | ⟨g1, _ | ⟨g2, _ | ⟨g3, _ | ⟨g4, rest⟩⟩⟩⟩⟩ <;>
    rw [hp] at hc <;> simp at hc
  have hsub : [g0, g1, g2, g3, g4] <+ A := by
    have h1 : [g0, g1, g2, g3, g4] <+ F := by
      rw [hp]
      have : (g0 :: g1 :: g2 :: g3 :: g4 :: rest) =
          [g0, g1, g2, g3, g4] ++ rest := rfl
      rw [this]
      exact List.sublist_append_left _ _
    have h2 : F <+ st := List.filter_sublist st
    have h3 : st <+ A := by
      rw [hAB]
      exact List.sublist_append_right B st
    exact (h1.trans h2).trans h3
  have hgap := hg g0 g1 g2 g3 g4 hsub
  have hg0 : g0 ∈ F := by rw [hp]; exact List.mem_cons_self _ _
  have hg4 : g4 ∈ F := by rw [hp]; simp
  have hg0w : now - g0 < 60 := by
    have := List.of_mem_filter hg0
    exact of_decide_eq_true this
  have hg4A : g4 ∈ A := by
    have : g4 ∈ st := List.mem_of_mem_filter hg4
    rw [hAB]
    exact List.mem_append_right B this
  have := hle g4 hg4A
  linarith

/-- One acquisition preserves the invariant, and the returned admission
timestamp never precedes the current clock. -/
theorem rlAcquire_step (A st : List ℚ) (clock δ : ℚ) (hδ : 0 ≤ δ)
    (hinv : RlInv A st clock) :
    RlInv (A ++ [(rlAcquire (clock + δ) st).1]) (rlAcquire (clock + δ) st).2
        (rlAcquire (clock + δ) st).1 ∧
      clock ≤ (rlAcquire (clock + δ) st).1 := by
  obtain ⟨B, hAB, hB⟩ := hinv.split
  set now := clock + δ with hnow_def
  have hclock_now : clock ≤ now := by linarith
  have hst_sorted : st.Pairwise (· ≤ ·) := by
    have hs := hinv.sorted
    rw [hAB] at hs
    exact (List.pairwise_append.mp hs).2.1
  set pruned := st.filter (fun t => decide (now - t < 60)) with hpr
  set dropped := st.filter (fun t => !(decide (now - t < 60))) with hdr
  have hsplit_st : st = dropped ++ pruned := filter_window_split now st hst_sorted
  have hA2 : A = (B ++ dropped) ++ pruned := by
    rw [hAB]
    conv_lhs => rw [hsplit_st]
    rw [List.append_assoc]
  have hB2 : ∀ b ∈ B ++ dropped, b + 60 ≤ now := by
    intro b hb
    rcases List.mem_append.mp hb with h | h
    · have := hB b h; linarith
    · exact dropped_old now st b h
  have hple4 := pruned_le_four A st B clock now hAB hinv.le_clock hinv.gap
    hclock_now
  have hAle : ∀ a ∈ A, a ≤ now := fun a ha =>
    le_trans (hinv.le_clock a ha) hclock_now
  by_cases hlen : 4 ≤ pruned.length
  · -- sleep branch: exactly four recent admissions remain
    have h4 : pruned.length = 4 := le_antisymm hple4 hlen
    obtain ⟨p0, tl, hp0⟩ : ∃ p0 tl, pruned = p0 :: tl := by
      cases hpc : pruned with
      | nil => rw [hpc] at h4; simp at h4
      | cons a l => exact ⟨a, l, rfl⟩
    have hheadD : pruned.headD 0 = p0 := by rw [hp0]; rfl
    have hp0w : now - p0 < 60 := by
      have hm : p0 ∈ pruned := by rw [hp0]; exact List.mem_cons_self _ _
      rw [hpr] at hm
      have hq := (List.mem_filter.mp hm).2
      simp only [decide_eq_true_eq] at hq
      exact hq
    have hmax : max (60 - (now - pruned.headD 0) + 1 / 2) 0 =
        60 - (now - pruned.headD 0) + 1 / 2 := by
      rw [hheadD]
      exact max_eq_left (by linarith)
    have hres : rlAcquire now st = (p0 + 121 / 2, pruned ++ [p0 + 121 / 2]) := by
      simp only [rlAcquire]
      rw [← hpr, if_pos hlen, hmax, hheadD]
      have harith : now + (60 - (now - p0) + 1 / 2) = p0 + 121 / 2 := by ring
      rw [harith]
    have htnow : now ≤ p0 + 121 / 2 := by linarith
    rw [hres]
    refine ⟨⟨⟨B ++ dropped, ?_, ?_⟩, ?_, ?_, ?_⟩, by linarith⟩
    · rw [hA2, List.append_assoc]
    · intro b hb
      have := hB2 b hb
      linarith
    · intro a ha
      rcases List.mem_append.mp ha with h | h
      · have := hAle a h; linarith
      · simp at h; linarith [le_of_eq h]
    · rw [List.pairwise_append]
      refine ⟨hinv.sorted, List.pairwise_singleton _ _, ?_⟩
      intro a ha b hb
      simp at hb
      subst hb
      have := hAle a ha
      linarith
    · intro a b c d e hsub
      rcases List.sublist_append_iff.mp hsub with ⟨l1, l2, heq, h1, h2⟩
      rcases List.sublist_singleton.mp h2 with rfl | rfl
      · rw [List.append_nil] at heq
        exact hinv.gap a b c d e (heq ▸ h1)
      · have heq2 : [a, b, c, d] ++ [e] = l1 ++ [p0 + 121 / 2] := by
          rw [show [a, b, c, d] ++ [e] = [a, b, c, d, e] from rfl, heq]
        have hlen1 : l1.length = 4 := by
          have := congrArg List.length heq
          simp at this
          omega
        obtain ⟨h14, hee⟩ := List.append_inj heq2 (by simp [hlen1])
        have he_t : e = p0 + 121 / 2 := by simpa using hee
        have h1' : [a, b, c, d] <+ (B ++ dropped) ++ pruned := by
          rw [← hA2, h14]
          exact h1
        rcases List.sublist_append_iff.mp h1' with ⟨m1, m2, hm, hm1, hm2⟩
        cases m1 with
        | nil =>
          rw [List.nil_append] at hm
          rw [← hm] at hm2
          have hmeq : [a, b, c, d] = pruned :=
            hm2.eq_of_length (by simp [h4])
          have ha_p0 : a = p0 := by
            rw [hp0] at hmeq
            exact ((List.cons.injEq _ _ _ _).mp hmeq).1
          rw [he_t, ha_p0]
          linarith
        | cons x xs =>
          have hax : a = x := by
            rw [List.cons_append] at hm
            exact ((List.cons.injEq _ _ _ _).mp hm).1
          have haBd : a ∈ B ++ dropped := by
            rw [hax]
            exact hm1.subset (List.mem_cons_self _ _)
          have := hB2 a haBd
          rw [he_t]
          linarith
  · -- no-sleep branch: at most three recent admissions remain
    have hle3 : pruned.length ≤ 3 := by omega
    have hres : rlAcquire now st = (now, pruned ++ [now]) := by
      simp only [rlAcquire]
      rw [← hpr, if_neg hlen]
    rw [hres]
    refine ⟨⟨⟨B ++ dropped, ?_, ?_⟩, ?_, ?_, ?_⟩, hclock_now⟩
    · rw [hA2, List.append_assoc]
    · exact hB2
    · intro a ha
      rcases List.mem_append.mp ha with h | h
      · exact hAle a h
      · simp at h; exact le_of_eq h
    · rw [List.pairwise_append]
      refine ⟨hinv.sorted, List.pairwise_singleton _ _, ?_⟩
      intro a ha b hb
      simp at hb
      subst hb
      exact hAle a ha
    · intro a b c d e hsub
      rcases List.sublist_append_iff.mp hsub with ⟨l1, l2, heq, h1, h2⟩
      rcases List.sublist_singleton.mp h2 with rfl | rfl
      · rw [List.append_nil] at heq
        exact hinv.gap a b c d e (heq ▸ h1)
      · have heq2 : [a, b, c, d] ++ [e] = l1 ++ [now] := by
          rw [show [a, b, c, d] ++ [e] = [a, b, c, d, e] from rfl, heq]
        have hlen1 : l1.length = 4 := by
          have := congrArg List.length heq
          simp at this
          omega
        obtain ⟨h14, hee⟩ := List.append_inj heq2 (by simp [hlen1])
        have he_t : e = now := by simpa using hee
        have h1' : [a, b, c, d] <+ (B ++ dropped) ++ pruned := by
          rw [← hA2, h14]
          exact h1
        rcases List.sublist_append_iff.mp h1' with ⟨m1, m2, hm, hm1, hm2⟩
        cases m1 with
        | nil =>
          rw [List.nil_append] at hm
          have : (4 : ℕ) ≤ pruned.length := by
            have hl := hm2.length_le
            rw [← hm] at hl
            simpa using hl
          omega
        | cons x xs =>
          have hax : a = x := by
            rw [List.cons_append] at hm
            exact ((List.cons.injEq _ _ _ _).mp hm).1
          have haBd : a ∈ B ++ dropped := by
            rw [hax]
            exact hm1.subset (List.mem_cons_self _ _)
          have := hB2 a haBd
          rw [he_t]
          linarith

theorem rlRun_invariant : ∀ (δs : List ℚ) (A st : List ℚ) (clock : ℚ),
    RlInv A st clock → (∀ d ∈ δs, 0 ≤ d) →
    gapInv (A ++ rlRun δs st clock) := by
  intro δs
  induction δs with
  | nil =>
    intro A st clock hinv _
    simpa [rlRun] using hinv.gap
  | cons δ rest ih =>
    intro A st clock hinv hd
    have hδ : 0 ≤ δ := hd δ (List.mem_cons_self _ _)
    obtain ⟨hinv', _⟩ := rlAcquire_step A st clock δ hδ hinv
    have hrest : ∀ d ∈ rest, 0 ≤ d := fun d h => hd d (List.mem_cons_of_mem _ h)
    have hih := ih (A ++ [(rlAcquire (clock + δ) st).1])
      (rlAcquire (clock + δ) st).2 (rlAcquire (clock + δ) st).1 hinv' hrest
    rw [rlRun]
    have hshape : A ++ ((rlAcquire (clock + δ) st).1 ::
        rlRun rest (rlAcquire (clock + δ) st).2 (rlAcquire (clock + δ) st).1) =
        (A ++ [(rlAcquire (clock + δ) st).1]) ++
          rlRun rest (rlAcquire (clock + δ) st).2 (rlAcquire (clock + δ) st).1 := by
      simp
    rw [hshape]
    exact hih

/-- `gapInv` bounds the number of admissions in any half-open 60-second
window `(x, x + 60]` by four. -/
theorem gap_window_count (A : List ℚ) (hg : gapInv A) (x : ℚ) :
    A.countP (fun t => decide (x < t ∧ t ≤ x + 60)) ≤ 4 := by
  by_contra hc
  push_neg at hc
  rw [List.countP_eq_length_filter] at hc
  rcases hp : A.filter (fun t => decide (x < t ∧ t ≤ x + 60)) with
    _ | ⟨f0, _ | ⟨f1, _ | ⟨f2, _ | ⟨f3, _ | ⟨f4, rest⟩⟩⟩⟩⟩ <;>
    rw [hp] at hc <;> simp at hc
  have hsubF : [f0, f1, f2, f3, f4] <+ A := by
    have h1 : [f0, f1, f2, f3, f4] <+ f0 :: f1 :: f2 :: f3 :: f4 :: rest := by
      rw [show (f0 :: f1 :: f2 :: f3 :: f4 :: rest) =
        [f0, f1, f2, f3, f4] ++ rest from rfl]
      exact List.sublist_append_left _ _
    have h2 : A.filter (fun t => decide (x < t ∧ t ≤ x + 60)) <+ A :=
      List.filter_sublist A
    rw [hp] at h2
    exact h1.trans h2
  have hm0 : f0 ∈ A.filter (fun t => decide (x < t ∧ t ≤ x + 60)) := by
    rw [hp]
    exact List.mem_cons_self _ _
  have hp0 := (List.mem_filter.mp hm0).2
  simp only [decide_eq_true_eq] at hp0
  have hm4 : f4 ∈ A.filter (fun t => decide (x < t ∧ t ≤ x + 60)) := by
    rw [hp]
    simp
  have hp4 := (List.mem_filter.mp hm4).2
  simp only [decide_eq_true_eq] at hp4
  have := hg f0 f1 f2 f3 f4 hsubF
  linarith [hp0.1, hp4.2]

/-- C6: (a) over any sequence of acquisitions with nonnegative inter-call
delays, starting from the empty shared list, no half-open rolling
60-second interval `(x, x + 60]` ever contains more than 4 admission
timestamps; (b) five back-to-back acquisitions admit the first four
immediately and delay the fifth to `t₁ + 60.5` — strictly after the first
admission's timestamp has exited the 60-second window. -/
theorem C6_rate_limiter_window :
    (∀ (c0 : ℚ) (δs : List ℚ) (x : ℚ), (∀ d ∈ δs, 0 ≤ d) →
        (rlRun δs [] c0).countP (fun t => decide (x < t ∧ t ≤ x + 60)) ≤ 4) ∧
      rlRun [0, 0, 0, 0, 0] [] 0 = [0, 0, 0, 0, 121 / 2] ∧
      (0 : ℚ) + 60 < 121 / 2 := by
  refine ⟨?_, ?_, by norm_num⟩
  · intro c0 δs x hd
    have hg := rlRun_invariant δs [] [] c0 (rlInv_init c0) hd
    rw [List.nil_append] at hg
    exact gap_window_count _ hg x
  · norm_num [rlRun, rlAcquire]

/-- Witness for C6's universally quantified window bound, at the
back-to-back schedule. -/
theorem C6_rate_limiter_window_witness :
    (rlRun [0, 0, 0, 0, 0] [] 0).countP
        (fun t => decide ((0 : ℚ) < t ∧ t ≤ 0 + 60)) ≤ 4 :=
  C6_rate_limiter_window.1 0 [0, 0, 0, 0, 0] 0 (by
    intro d hd
    simp at hd
    simp [hd])

/-! ## Towards C8's amended statement: a print/parse roundtrip for
`_normalize_url`'s output -/

theorem dropWhile_append_all {α} (p : α → Bool) (l1 l2 : List α)
    (h : ∀ a ∈ l1, p a = true) :
    (l1 ++ l2).dropWhile p = l2.dropWhile p := by
  induction l1 with
  | nil => simp
  | cons x xs ih =>
    rw [List.cons_append, List.dropWhile_cons, if_pos (h x (List.mem_cons_self _ _)),
      ih (fun a ha => h a (List.mem_cons_of_mem _ ha))]

theorem dropWhile_all {α} (p : α → Bool) (l : List α)
    (h : ∀ a ∈ l, p a = true) : l.dropWhile p = [] := by
  have := dropWhile_append_all p l [] h
  simpa using this

theorem digitChars_not_colon (c : Char) (h : c ∈ digitChars) : ¬ c = ':' := by
  fin_cases h <;> decide

theorem digitChars_not_hash (c : Char) (h : c ∈ digitChars) : c ≠ '#' := by
  fin_cases h <;> decide

theorem digitChars_not_question (c : Char) (h : c ∈ digitChars) : c ≠ '?' := by
  fin_cases h <;> decide

end PhishDef
